import Mathlib

/-!
Verification of the libunwindstack core against its natural-language
specification.  The development shallowly embeds the relevant parts of the
code base:

* `RegsRiscv64` — from `libunwindstack/RegsRiscv64.cpp` together with the
  register indices of `include/unwindstack/MachineRiscv64.h`.
* `AndroidUnwinder` — from `libunwindstack/AndroidUnwinder.cpp` (the
  orchestrator entry points, their once-only initialization and the
  clone-before-walk discipline).  The inner frame walker
  (`Unwinder::Unwind`) is outside the sources and is kept abstract as a
  function parameter.
* `Symbols` and the object cache — their implementation files are not part
  of the sources (only their tests are), so they are modelled from the
  specification text, with the repository tests pinning the concrete
  behavior.

Machine integers are embedded as `Nat` with explicit `2 ^ 64` bounds where
overflow matters; fallible reads return `Option`.
-/

namespace Unwindstack

/-- The size of the 64-bit address space; u64 arithmetic that would reach
this bound overflows. -/
def u64Bound : Nat := 2 ^ 64

/-- Byte-addressed memory: a partial map from a 64-bit address to a byte.
This models the `Memory` interface backed by `MemoryFake` in the tests: a
read succeeds exactly when every requested byte is present. -/
def Mem : Type := Nat → Option Nat

/-- The everywhere-failing memory, i.e. `MemoryFake::Clear`. -/
def emptyMem : Mem := fun _ => none

/-- Modelled from the spec: `Memory::ReadFully` (its implementation is not
among the sources).  Per the spec a failed read of the signal frame leaves
the register snapshot unchanged, so the read is all-or-nothing: it returns
the `count` bytes starting at `addr` or fails if any byte is missing. -/
def readBytes (m : Mem) (addr : Nat) : Nat → Option (List Nat)
  | 0 => some []
  | n + 1 =>
    match m addr, readBytes m (addr + 1) n with
    | some b, some bs => some (b :: bs)
    | _, _ => none

/-- Little-endian interpretation of a byte list as one unsigned value. -/
def leVal (bs : List Nat) : Nat := bs.foldr (fun b acc => b + 256 * acc) 0

/-- Decode a byte list into consecutive little-endian u64 values. -/
def decodeU64s : List Nat → List Nat
  | b0 :: b1 :: b2 :: b3 :: b4 :: b5 :: b6 :: b7 :: rest =>
    leVal [b0, b1, b2, b3, b4, b5, b6, b7] :: decodeU64s rest
  | _ => []

/-- Register indices from `MachineRiscv64.h`. -/
def RISCV64_REG_PC : Nat := 0

/-- Register index of the return-address register `ra`. -/
def RISCV64_REG_RA : Nat := 1

/-- Register index of the stack pointer `sp`. -/
def RISCV64_REG_SP : Nat := 2

/-- Number of riscv64 registers (`RISCV64_REG_MAX`). -/
def RISCV64_REG_MAX : Nat := 32

/-- The riscv64 register snapshot: the `regs_` array of
`RegsImpl<uint64_t>` holding `RISCV64_REG_MAX` values. -/
structure RegsRiscv64 where
  regs : List Nat
  deriving DecidableEq, Repr

/-- Read register `i` (out-of-range reads, which the code never performs,
default to 0). -/
def RegsRiscv64.get (r : RegsRiscv64) (i : Nat) : Nat := r.regs.getD i 0

/-- `RegsRiscv64::set_pc`. -/
def RegsRiscv64.set_pc (r : RegsRiscv64) (pc : Nat) : RegsRiscv64 :=
  ⟨r.regs.set RISCV64_REG_PC pc⟩

/-- `RegsRiscv64::SetPcFromReturnAddress`: reports failure when `ra`
equals the current `pc`, otherwise writes `ra` into `pc`.  The `Memory*`
argument is unused by the code and omitted. -/
def RegsRiscv64.SetPcFromReturnAddress (r : RegsRiscv64) : Bool × RegsRiscv64 :=
  let ra := r.get RISCV64_REG_RA
  if r.get RISCV64_REG_PC = ra then (false, r)
  else (true, r.set_pc ra)

/-- The 8-byte machine-code signature of the kernel sigreturn trampoline
(`li a7, __NR_rt_sigreturn; scall`) from `RegsRiscv64.cpp`. -/
def liScall : List Nat := [0x93, 0x08, 0xb0, 0x08, 0x73, 0x00, 0x00, 0x00]

/-- `RegsRiscv64::StepIfSignalHandler`: read 8 bytes at the elf-relative
pc from the elf memory, compare them with the sigreturn signature, and on
a match read the full saved register block at `sp + 0x80 + 0xb0 + 0x00`
from process memory into the register array. -/
def RegsRiscv64.StepIfSignalHandler (r : RegsRiscv64) (elfOffset : Nat)
    (elfMem procMem : Mem) : Bool × RegsRiscv64 :=
  match readBytes elfMem elfOffset 8 with
  | none => (false, r)
  | some data =>
    if data = liScall then
      match readBytes procMem ((r.get RISCV64_REG_SP + 0x80 + 0xb0 + 0x00) % u64Bound)
          (8 * RISCV64_REG_MAX) with
      | none => (false, r)
      | some bytes => (true, ⟨decodeU64s bytes⟩)
    else (false, r)

/-- Concrete snapshot used to instantiate witnesses. -/
def regsEx : RegsRiscv64 := ⟨List.replicate 32 0 |>.set 0 0x800 |>.set 1 0x900 |>.set 2 0x5000⟩

/-- Error codes of `unwindstack::ErrorCode` that the orchestrator glue in
`AndroidUnwinder.cpp` manipulates itself; every other code produced by the
walker or by `InternalInitialize` is carried opaquely as `other`. -/
inductive ErrorCode where
  | errNone
  | errInvalidParameter
  | errBadArch
  | errMapsParse
  | other (code : Nat)
  deriving DecidableEq, Repr

/-- The `ErrorData` pair: a code plus an optional faulting address. -/
structure ErrorData where
  code : ErrorCode
  address : Nat
  deriving DecidableEq, Repr

/-- One produced stack frame.  The orchestrator treats frames opaquely
(it only moves and counts them), so only the fields the claims mention
are carried. -/
structure FrameData where
  pc : Nat
  sp : Nat
  deriving DecidableEq, Repr

/-- The in-out argument `AndroidUnwinderData` (frames plus error). -/
structure AndroidUnwinderData where
  frames : List FrameData
  error : ErrorData
  deriving DecidableEq, Repr

/-- A fresh `AndroidUnwinderData` as a caller constructs it. -/
def AndroidUnwinderData.empty : AndroidUnwinderData :=
  ⟨[], ⟨ErrorCode.errNone, 0⟩⟩

/-- A generic register snapshot handed to the orchestrator: an
architecture tag plus the register values.  `Clone` copies the value. -/
structure Regs where
  arch : Nat
  vals : List Nat
  deriving DecidableEq, Repr

/-- The addressable store of register snapshots; modelling object identity
so that mutation of a clone is distinguishable from mutation of the
caller's object. -/
def RegsHeap : Type := Nat → Regs

/-- What one run of the inner frame walker (`Unwinder::Unwind` followed by
`ConsumeFrames` and `LastError`) produces from the register object it was
given: the collected frames, the terminal error, and the final contents of
that register object.  The walker is not among the sources and is kept
abstract. -/
structure WalkOutcome where
  frames : List FrameData
  err : ErrorData
  finalRegs : Regs

/-- The environment `AndroidUnwinder::Initialize` runs in: whether
`InternalInitialize` would succeed, the architecture it would detect and
the error code it would report on failure (`ERROR_MAPS_PARSE` for the
local unwinder). -/
structure InitEnv where
  ok : Bool
  arch : Nat
  failCode : ErrorCode

/-- Mutable orchestrator state: the `std::once_flag initialize_` (whether
the once-body already ran), the sticky `initialize_status_`, the detected
`arch_`, and a count of how many times the initialization body was
executed (to express that it runs at most once). -/
structure OrchState where
  initOnce : Bool
  initStatus : Bool
  arch : Nat
  runs : Nat
  deriving DecidableEq, Repr

/-- A freshly constructed unwinder instance. -/
def OrchState.fresh : OrchState := ⟨false, false, 0, 0⟩

/-- `AndroidUnwinder::Initialize`: under `std::call_once` run the
initialization body once; afterwards every call returns the sticky
`initialize_status_`.  The error out-parameter is only written by the
body itself (a later call never touches it, because `call_once` does not
re-run the body). -/
def Initialize (env : InitEnv) (st : OrchState) (err : ErrorData) :
    Bool × OrchState × ErrorData :=
  if st.initOnce then (st.initStatus, st, err)
  else if env.ok then
    (true, ⟨true, true, env.arch, st.runs + 1⟩, err)
  else
    (false, ⟨true, false, st.arch, st.runs + 1⟩, { err with code := env.failCode })

/-- `AndroidUnwinder::Unwind(Regs*, AndroidUnwinderData&)`: reject a null
snapshot, run the once-only initialization, reject an architecture
mismatch, then clone the caller's snapshot into a fresh heap slot, run the
walker on the clone, move the walker's frames and error into `data` and
report success iff the frame list is non-empty.  `clonePtr` is the slot
the allocator returns for the clone (the caller supplies a slot distinct
from every live object).  The result is (returned bool, final `data`,
final heap, final orchestrator state). -/
def UnwindFromRegs (env : InitEnv) (walker : Regs → WalkOutcome)
    (st : OrchState) (heap : RegsHeap) (clonePtr : Nat)
    (regsPtr : Option Nat) (d : AndroidUnwinderData) :
    Bool × AndroidUnwinderData × RegsHeap × OrchState :=
  match regsPtr with
  | none =>
    (false, { d with error := { d.error with code := ErrorCode.errInvalidParameter } }, heap, st)
  | some p =>
    let init := Initialize env st d.error
    let d1 : AndroidUnwinderData := { d with error := init.2.2 }
    if init.1 = false then (false, d1, heap, init.2.1)
    else if init.2.1.arch ≠ (heap p).arch then
      (false, { d1 with error := { d1.error with code := ErrorCode.errBadArch } }, heap, init.2.1)
    else
      let heap1 : RegsHeap := fun q => if q = clonePtr then heap p else heap q
      let outcome := walker (heap1 clonePtr)
      let heap2 : RegsHeap := fun q => if q = clonePtr then outcome.finalRegs else heap1 q
      (decide (outcome.frames.length ≠ 0),
       { d1 with frames := outcome.frames, error := outcome.err }, heap2, init.2.1)

/-- Concrete successful initialization environment for witnesses. -/
def envEx : InitEnv := ⟨true, 5, ErrorCode.errMapsParse⟩

/-- Concrete failing initialization environment (maps-parse failure). -/
def envBad : InitEnv := ⟨false, 0, ErrorCode.errMapsParse⟩

/-- Concrete walker for witnesses: one frame, no error, registers
unchanged. -/
def walkerEx : Regs → WalkOutcome :=
  fun r => ⟨[⟨r.arch, 0⟩], ⟨ErrorCode.errNone, 0⟩, r⟩

/-- Concrete register heap for witnesses. -/
def heapEx : RegsHeap := fun _ => ⟨5, [0x1000, 0x2000]⟩

/-- Modelled from the spec: one symbol-table entry, the fixed-size record
`(name_offset, info, other, section_index, value, size)` of the spec's
binary layout (`Symbols.h/.cpp` are not among the sources; only their
tests are).  The `other` byte is never consulted by lookups and is
omitted. -/
structure SymEnt where
  nameOff : Nat
  info : Nat
  shndx : Nat
  value : Nat
  size : Nat
  deriving DecidableEq, Repr

/-- Modelled from the spec: the memory a symbol table reads from.  Record
reads are modelled structurally: `syms a` is the symbol record whose bytes
start at address `a` (present iff all its bytes are present), and `bytes`
serves the string table. -/
structure SymMemory where
  syms : Nat → Option SymEnt
  bytes : Nat → Option Nat

/-- The cleared memory source (`MemoryFake::Clear`). -/
def emptySymMem : SymMemory := ⟨fun _ => none, fun _ => none⟩

/-- Modelled from the spec: the symbol-table header
`{entries_start_offset, entries_total_size, entry_size,
string_table_offset, string_table_size}` (the `Symbols` constructor
arguments in the tests), plus `recSize`, the size of the fixed record
actually read per entry (`sizeof(SymType)`, 16 or 24). -/
structure Symbols where
  offset : Nat
  totalSize : Nat
  entrySize : Nat
  strOffset : Nat
  strSize : Nat
  recSize : Nat
  deriving DecidableEq, Repr

/-- Number of entries the table claims to hold. -/
def Symbols.count (t : Symbols) : Nat :=
  if t.entrySize = 0 then 0 else t.totalSize / t.entrySize

/-- Modelled from the spec: read the record of entry `i`.  The u64
address arithmetic `offset + i * entry_size` and the record extent are
checked against the numeric maximum: a combination that would overflow is
detected and treated as a failed read, never as a wrapped-around read. -/
def readSymAt (m : SymMemory) (t : Symbols) (i : Nat) : Option SymEnt :=
  if t.offset + i * t.entrySize + t.recSize ≤ u64Bound then
    m.syms (t.offset + i * t.entrySize)
  else none

/-- Read consecutive entry records starting at index `start`, stopping at
the first failed (missing or overflow-detected) read. -/
def readSymsFrom (m : SymMemory) (t : Symbols) : Nat → Nat → List SymEnt
  | _, 0 => []
  | start, fuel + 1 =>
    match readSymAt m t start with
    | none => []
    | some e => e :: readSymsFrom m t (start + 1) fuel

/-- The entry array of the table as read from memory. -/
def entriesOf (m : SymMemory) (t : Symbols) : List SymEnt :=
  readSymsFrom m t 0 t.count

/-- Read a NUL-terminated byte string from `a` (exclusive bound `stop`);
fails if the terminator is not found before the bound or a byte is
missing. -/
def readChars (m : SymMemory) (a stop : Nat) : Nat → Option (List Nat)
  | 0 => none
  | fuel + 1 =>
    if a < stop then
      match m.bytes a with
      | none => none
      | some 0 => some []
      | some b => (readChars m (a + 1) stop fuel).map (fun bs => b :: bs)
    else none

/-- Modelled from the spec: resolve an entry's name from the string table,
starting at `string_table_offset + name_offset` and never reading at or
past `string_table_offset + string_table_size` nor past the end of the
address space. -/
def resolveName (m : SymMemory) (t : Symbols) (e : SymEnt) : Option (List Nat) :=
  let stop := min (t.strOffset + t.strSize) u64Bound
  let a := t.strOffset + e.nameOff
  if a < stop then readChars m a stop (stop - a) else none

/-- One cached entry: the record together with its resolved name (the
full-table cache retains everything the table needs so that later lookups
touch no memory). -/
structure NamedEnt where
  ent : SymEnt
  name : Option (List Nat)
  deriving DecidableEq, Repr

/-- Read and resolve the whole entry array: what the first lookup against
a table caches. -/
def loadEntries (m : SymMemory) (t : Symbols) : List NamedEnt :=
  (entriesOf m t).map (fun e => ⟨e, resolveName m t e⟩)

/-- Eligibility: only entries of type function (`STT_FUNC`, low nibble of
`info`) whose section index is not `SHN_UNDEF` take part in `GetName`. -/
def isFunc (e : SymEnt) : Prop := e.shndx ≠ 0 ∧ e.info % 16 = 2

instance (e : SymEnt) : Decidable (isFunc e) := by
  unfold isFunc
  infer_instance

/-- The address-matching rule: `entry.value <= A < entry.value +
max(entry.size, 1)`, so zero-size entries are single-point markers. -/
def symMatches (e : SymEnt) (addr : Nat) : Prop :=
  e.value ≤ addr ∧ addr < e.value + max e.size 1

instance (e : SymEnt) (addr : Nat) : Decidable (symMatches e addr) := by
  unfold symMatches
  infer_instance

/-- Search the entry array for the function entry containing `addr`. -/
def findFunc (es : List NamedEnt) (addr : Nat) : Option NamedEnt :=
  es.find? (fun ne => decide ( isFunc ne.ent) && decide (symMatches ne.ent addr))

/-- The pure core of `GetName` on an already-cached entry array. -/
def GetNameIn (es : List NamedEnt) (addr : Nat) : Option (List Nat × Nat) :=
  match findFunc es addr with
  | none => none
  | some ne =>
    match ne.name with
    | none => none
    | some s => some (s, addr - ne.ent.value)

/-- Modelled from the spec: `Symbols::GetName(address)`, returning the
name and the function-relative offset. -/
def Symbols.GetName (t : Symbols) (m : SymMemory) (addr : Nat) : Option (List Nat × Nat) :=
  GetNameIn (loadEntries m t) addr

/-- The lazily-populated full-table cache: `none` before the first lookup,
afterwards the retained entry array. -/
def SymCache : Type := Option (List NamedEnt)

/-- Modelled from the spec: `GetName` with the full-table cache threaded
explicitly; the first lookup reads and retains the whole entry array,
later lookups use only the cache. -/
def Symbols.GetNameCached (t : Symbols) (m : SymMemory) (c : SymCache) (addr : Nat) :
    Option (List Nat × Nat) × SymCache :=
  match c with
  | some es => (GetNameIn es addr, some es)
  | none =>
    let es := loadEntries m t
    (GetNameIn es addr, some es)

/-- Global-object eligibility for `GetGlobal`: binding `STB_GLOBAL` (high
nibble of `info`) and type `STT_OBJECT` (low nibble). -/
def isGlobalObj (e : SymEnt) : Prop := e.info / 16 = 1 ∧ e.info % 16 = 1

instance (e : SymEnt) : Decidable (isGlobalObj e) := by
  unfold isGlobalObj
  infer_instance

/-- Modelled from the spec: `Symbols::GetGlobal(name)`, a linear scan over
the entry array restricted to global objects. -/
def Symbols.GetGlobal (t : Symbols) (m : SymMemory) (s : List Nat) : Option Nat :=
  match (loadEntries m t).find?
      (fun ne => decide ( isGlobalObj ne.ent) && decide (ne.name = some s)) with
  | none => none
  | some ne => some ne.ent.value

/-- Helper for concrete memories: the bytes `bs` laid out from `base`. -/
def bytesAt (base : Nat) (bs : List Nat) : Nat → Option Nat :=
  fun a => if base ≤ a ∧ a < base + bs.length then some (bs.getD (a - base) 0) else none

/-- The byte string of a name used in the repository tests. -/
def fakeFunctionName : List Nat :=
  [0x66, 0x61, 0x6b, 0x65, 0x5f, 0x66, 0x75, 0x6e, 0x63, 0x74, 0x69, 0x6f, 0x6e]

/-- The concrete single-entry table of the `function_bounds_check` test
(64-bit records). -/
def symTabEx : Symbols := ⟨0x1000, 24, 24, 0x2000, 0x100, 24⟩

/-- Its one function entry: value 0x5000, size 0x10, name offset 0x40,
`STT_FUNC`, `SHN_COMMON`. -/
def symEntEx : SymEnt := ⟨0x40, 2, 0xfff2, 0x5000, 0x10⟩

/-- The concrete memory of the `function_bounds_check` test. -/
def symMemEx : SymMemory :=
  ⟨fun a => if a = 0x1000 then some symEntEx else none,
   bytesAt 0x2040 (fakeFunctionName ++ [0])⟩

/-- The adversarial table of the `get_global_overflow` test: entry array
starting at `UINT64_MAX - 0x1000` with total size `UINT64_MAX` and entry
size `UINT64_MAX / 4`. -/
def ovTab : Symbols :=
  ⟨u64Bound - 1 - 0x1000, u64Bound - 1, (u64Bound - 1) / 4, 0xa000, 0x1000, 24⟩

/-- Byte string of the name global_0. -/
def globalZeroName : List Nat := [0x67, 0x6c, 0x6f, 0x62, 0x61, 0x6c, 0x5f, 0x30]

/-- Byte string of the name global_1. -/
def globalOneName : List Nat := [0x67, 0x6c, 0x6f, 0x62, 0x61, 0x6c, 0x5f, 0x31]

/-- The one global-object entry of the overflow test
(`STT_OBJECT | STB_GLOBAL << 4`). -/
def ovEnt : SymEnt := ⟨0x100, 0x11, 0xfff2, 0, 0⟩

/-- Memory of the overflow test: the entry at the table start, its name in
the string table. -/
def ovMem : SymMemory :=
  ⟨fun a => if a = u64Bound - 1 - 0x1000 then some ovEnt else none,
   bytesAt 0xa100 (globalZeroName ++ [0])⟩

/-- Combine two partial byte maps, preferring the first. -/
def firstSome (f g : Nat → Option Nat) : Nat → Option Nat :=
  fun a =>
    match f a with
    | some b => some b
    | none => g a

/-- The three-entry table of the `symtab_read_cached` test. -/
def cachedTab : Symbols := ⟨0x1000, 72, 24, 0xa000, 0x1000, 24⟩

/-- Byte string of the name first_entry. -/
def firstEntryName : List Nat :=
  [0x66, 0x69, 0x72, 0x73, 0x74, 0x5f, 0x65, 0x6e, 0x74, 0x72, 0x79]

/-- Byte string of the name second_entry. -/
def secondEntryName : List Nat :=
  [0x73, 0x65, 0x63, 0x6f, 0x6e, 0x64, 0x5f, 0x65, 0x6e, 0x74, 0x72, 0x79]

/-- Byte string of the name third_entry. -/
def thirdEntryName : List Nat :=
  [0x74, 0x68, 0x69, 0x72, 0x64, 0x5f, 0x65, 0x6e, 0x74, 0x72, 0x79]

/-- Memory of the `symtab_read_cached` test: three function entries that
are deliberately not in ascending address order, plus their names. -/
def cachedMem : SymMemory :=
  ⟨fun a =>
      if a = 0x1000 then some ⟨0x100, 2, 0xfff2, 0x5000, 0x10⟩
      else if a = 0x1018 then some ⟨0x200, 2, 0xfff2, 0x2000, 0x300⟩
      else if a = 0x1030 then some ⟨0x300, 2, 0xfff2, 0x1000, 0x100⟩
      else none,
   firstSome (bytesAt 0xa100 (firstEntryName ++ [0]))
     (firstSome (bytesAt 0xa200 (secondEntryName ++ [0]))
       (bytesAt 0xa300 (thirdEntryName ++ [0])))⟩

/-- Modelled from the spec: one file-backed mapped region of the address
space map (`MapInfo` and the object cache are not among the sources; only
their tests are).  Anonymous regions take no part in object resolution and
are not modelled; the claims quantify over file-backed regions whose
object parses. -/
structure MapRegion where
  startAddr : Nat
  endAddr : Nat
  offset : Nat
  file : Nat
  deriving DecidableEq, Repr

/-- A region used as the out-of-range default of list accessors. -/
def noRegion : MapRegion := ⟨0, 0, 0, 0⟩

/-- Modelled from the spec: the layout of the backing files — at which
byte offsets of which file an embedded binary object begins (several
objects may share one archive file at different offsets). -/
structure FileSet where
  elfAt : Nat → Nat → Bool

/-- File identity of the region at index `i` of the map. -/
def fileOf (ms : List MapRegion) (i : Nat) : Nat := (ms.getD i noRegion).file

/-- File offset of the region at index `i` of the map. -/
def offOf (ms : List MapRegion) (i : Nat) : Nat := (ms.getD i noRegion).offset

/-- Search downward from index `j` (exclusive) for the nearest region
backed by file `f`. -/
def searchSame (ms : List MapRegion) (f : Nat) : Nat → Option Nat
  | 0 => none
  | j + 1 => if fileOf ms j = f then some j else searchSame ms f j

/-- The previous real map of region `i`: the nearest earlier region of the
same backing file (the spec's get-previous-real-map walk). -/
def prevSame (ms : List MapRegion) (i : Nat) : Option Nat :=
  searchSame ms (fileOf ms i) i

/-- A region is a chain head iff an embedded object begins exactly at its
file offset; otherwise it is the continuation (for example the
read-exec half of a split read-only + read-exec mapping) of an earlier
same-file region. -/
def isHeadB (fs : FileSet) (ms : List MapRegion) (i : Nat) : Bool :=
  fs.elfAt (fileOf ms i) (offOf ms i)

/-- Fuelled walk to the head of the chain region `i` belongs to. -/
def chainHeadF (fs : FileSet) (ms : List MapRegion) : Nat → Nat → Nat
  | 0, i => i
  | fuel + 1, i =>
    if isHeadB fs ms i then i
    else
      match prevSame ms i with
      | none => i
      | some j => chainHeadF fs ms fuel j

/-- Modelled from the spec: walk backward through same-file regions to the
earliest region that is part of the same logical object.  Each backward
step strictly decreases the index, so fuel `i` always suffices. -/
def chainHead (fs : FileSet) (ms : List MapRegion) (i : Nat) : Nat :=
  chainHeadF fs ms i i

/-- The computed `elf_start_offset` of region `i`: the file offset of its
chain head. -/
def elfStart (fs : FileSet) (ms : List MapRegion) (i : Nat) : Nat :=
  offOf ms (chainHead fs ms i)

/-- The cache key of region `i`: its computed
`(file identity, elf_start_offset)` pair. -/
def cacheKey (fs : FileSet) (ms : List MapRegion) (i : Nat) : Nat × Nat :=
  (fileOf ms i, elfStart fs ms i)

/-- The process-wide object cache plus the allocator of object
identities: `cache` maps `(file identity, elf_start_offset)` keys to the
identity of the parsed object, `next` is the next fresh identity. -/
structure CacheState where
  cache : List ((Nat × Nat) × Nat)
  next : Nat
  deriving DecidableEq, Repr

/-- Look a key up in the cache. -/
def lookupCache (c : List ((Nat × Nat) × Nat)) (k : Nat × Nat) : Option Nat :=
  match c.find? (fun p => decide (p.1 = k)) with
  | none => none
  | some p => some p.2

/-- Modelled from the spec: resolve the object of region `i`.  A
continuation region shares the object already resolved for its chain
head; a chain head consults the cache by its key when caching is enabled
(inserting a freshly parsed object on a miss) and always parses a fresh
object when caching is disabled. -/
def resolveStep (enabled : Bool) (fs : FileSet) (ms : List MapRegion)
    (st : CacheState × List Nat) (i : Nat) : CacheState × List Nat :=
  if chainHead fs ms i < i then (st.1, st.2 ++ [st.2.getD (chainHead fs ms i) 0])
  else if enabled then
    match lookupCache st.1.cache (fileOf ms i, offOf ms i) with
    | some v => (st.1, st.2 ++ [v])
    | none =>
      (⟨((fileOf ms i, offOf ms i), st.1.next) :: st.1.cache, st.1.next + 1⟩,
       st.2 ++ [st.1.next])
  else (⟨st.1.cache, st.1.next + 1⟩, st.2 ++ [st.1.next])

/-- Resolve the objects of the first `n` regions of the map, in map
order, threading the cache. -/
def resolvePre (enabled : Bool) (fs : FileSet) (ms : List MapRegion) :
    Nat → CacheState × List Nat
  | 0 => (⟨[], 0⟩, [])
  | n + 1 => resolveStep enabled fs ms (resolvePre enabled fs ms n) n

/-- The object identities all regions of the map resolve to. -/
def resolveAll (enabled : Bool) (fs : FileSet) (ms : List MapRegion) : List Nat :=
  (resolvePre enabled fs ms ms.length).2

/-- Concrete counterexample map: the split read-only + read-exec mapping
of one file (regions `4000-5000 r-- offset 0` and `5000-6000 r-x offset
0x1000` of `elf_three.so` in the cache tests). -/
def splitMaps : List MapRegion := [⟨0x4000, 0x5000, 0, 7⟩, ⟨0x5000, 0x6000, 0x1000, 7⟩]

/-- Concrete counterexample file layout: file 7 holds one object starting
at offset 0 and nothing at offset 0x1000. -/
def splitFiles : FileSet := ⟨fun f o => f == 7 && o == 0⟩

/-- Concrete map with the split mapping of file 7 mapped twice (like
regions `4000/5000` and `12000` of the cache tests): regions 0 and 2 have
equal computed keys. -/
def tripleMaps : List MapRegion :=
  [⟨0x4000, 0x5000, 0, 7⟩, ⟨0x5000, 0x6000, 0x1000, 7⟩, ⟨0x12000, 0x13000, 0, 7⟩]

/-- Concrete archive file 9 holding two embedded objects at offsets
0x4000 and 0x8000 (like `app_two.apk` in the cache tests). -/
def apkFiles : FileSet := ⟨fun f o => f == 9 && (o == 0x4000 || o == 0x8000)⟩

/-- Two regions of archive file 9 at the two embedded-object offsets:
same backing file, different computed `elf_start_offset`. -/
def apkMaps : List MapRegion :=
  [⟨0x9000, 0xa000, 0x4000, 9⟩, ⟨0xb000, 0xc000, 0x8000, 9⟩]

end Unwindstack

namespace Unwindstack

theorem getD_set_ne (l : List Nat) (i j v d : Nat) (h : i ≠ j) :
    (l.set i v).getD j d = l.getD j d := by
  simp only [List.getD_eq_getElem?_getD]
  rw [List.getElem?_set_ne h]

theorem getD_set_self (l : List Nat) (i v d : Nat) (h : i < l.length) :
    (l.set i v).getD i d = v := by
  simp only [List.getD_eq_getElem?_getD]
  rw [List.getElem?_set_self h]
  rfl

/-- Claim C7: for every register state, `SetPcFromReturnAddress` returns
false (and changes nothing) when the return-address register equals the
current pc, and otherwise returns true, sets pc to the return-address
register's value and leaves every other register unchanged. -/
theorem claim_C7 (r : RegsRiscv64) :
    (r.get RISCV64_REG_PC = r.get RISCV64_REG_RA →
      r.SetPcFromReturnAddress = (false, r)) ∧
    (r.get RISCV64_REG_PC ≠ r.get RISCV64_REG_RA →
      (r.SetPcFromReturnAddress).1 = true ∧
      (r.SetPcFromReturnAddress).2.get RISCV64_REG_PC = r.get RISCV64_REG_RA ∧
      ∀ i, i ≠ RISCV64_REG_PC → (r.SetPcFromReturnAddress).2.get i = r.get i) := by
  constructor
  · intro h
    simp [RegsRiscv64.SetPcFromReturnAddress, h]
  · intro h
    have hcond : ¬ (r.get RISCV64_REG_PC = r.get RISCV64_REG_RA) := h
    refine ⟨by simp [RegsRiscv64.SetPcFromReturnAddress, hcond], ?_, ?_⟩
    · have hne : r.regs ≠ [] := by
        intro hnil
        apply h
        simp [RegsRiscv64.get, hnil]
      have hlen : RISCV64_REG_PC < r.regs.length := by
        cases hr : r.regs with
        | nil => exact absurd hr hne
        | cons a as => simp [RISCV64_REG_PC, hr]
      simp only [RegsRiscv64.SetPcFromReturnAddress, hcond, if_false]
      exact getD_set_self r.regs RISCV64_REG_PC (r.get RISCV64_REG_RA) 0 hlen
    · intro i hi
      simp only [RegsRiscv64.SetPcFromReturnAddress, hcond, if_false]
      exact getD_set_ne r.regs RISCV64_REG_PC i (r.get RISCV64_REG_RA) 0 (fun he => hi he.symm)

/-- Witness for C7 at a concrete snapshot: pc 0x800, ra 0x900. -/
theorem claim_C7_witness :
    (regsEx.SetPcFromReturnAddress).1 = true ∧
    (regsEx.SetPcFromReturnAddress).2.get RISCV64_REG_PC = 0x900 ∧
    (regsEx.SetPcFromReturnAddress).2.get RISCV64_REG_SP = 0x5000 := by
  have h := (claim_C7 regsEx).2 (by decide)
  refine ⟨h.1, ?_, ?_⟩
  · rw [h.2.1]
    decide
  · rw [h.2.2 RISCV64_REG_SP (by decide)]
    decide

theorem stepSignalCases (r : RegsRiscv64) (elfOffset : Nat) (elfMem procMem : Mem) :
    (∃ bytes,
      readBytes elfMem elfOffset 8 = some liScall ∧
      readBytes procMem ((r.get RISCV64_REG_SP + 0x80 + 0xb0 + 0x00) % u64Bound)
          (8 * RISCV64_REG_MAX) = some bytes ∧
      r.StepIfSignalHandler elfOffset elfMem procMem = (true, ⟨decodeU64s bytes⟩)) ∨
    (r.StepIfSignalHandler elfOffset elfMem procMem = (false, r) ∧
      (readBytes elfMem elfOffset 8 = none ∨
       (∃ d, readBytes elfMem elfOffset 8 = some d ∧ d ≠ liScall) ∨
       readBytes procMem ((r.get RISCV64_REG_SP + 0x80 + 0xb0 + 0x00) % u64Bound)
           (8 * RISCV64_REG_MAX) = none)) := by
  unfold RegsRiscv64.StepIfSignalHandler
  cases hdata : readBytes elfMem elfOffset 8 with
  | none => exact Or.inr ⟨rfl, Or.inl rfl⟩
  | some data =>
    by_cases hsig : data = liScall
    · subst hsig
      cases hread : readBytes procMem ((r.get RISCV64_REG_SP + 0x80 + 0xb0 + 0x00) % u64Bound)
          (8 * RISCV64_REG_MAX) with
      | none => exact Or.inr ⟨by simp [hread], Or.inr (Or.inr rfl)⟩
      | some bytes => exact Or.inl ⟨bytes, rfl, rfl, by simp [hread]⟩
    · exact Or.inr ⟨by simp [hsig], Or.inr (Or.inl ⟨data, rfl, hsig⟩)⟩

/-- Claim C6: `StepIfSignalHandler` returns false and leaves the snapshot
unchanged unless the 8 bytes at the elf-relative pc match the sigreturn
trampoline signature and the full register-block read from the stack
succeeds; exactly on a full match-and-read it returns true and replaces
the whole register set with the values read from memory. -/
theorem claim_C6 (r : RegsRiscv64) (elfOffset : Nat) (elfMem procMem : Mem) :
    ((r.StepIfSignalHandler elfOffset elfMem procMem).1 = false →
      (r.StepIfSignalHandler elfOffset elfMem procMem).2 = r) ∧
    ((r.StepIfSignalHandler elfOffset elfMem procMem).1 = true ↔
      (readBytes elfMem elfOffset 8 = some liScall ∧
       ∃ bytes, readBytes procMem ((r.get RISCV64_REG_SP + 0x80 + 0xb0 + 0x00) % u64Bound)
           (8 * RISCV64_REG_MAX) = some bytes ∧
         (r.StepIfSignalHandler elfOffset elfMem procMem).2 = ⟨decodeU64s bytes⟩)) := by
  rcases stepSignalCases r elfOffset elfMem procMem with
    ⟨bytes, heldata, hpread, hstep⟩ | ⟨hstep, hwhy⟩
  · constructor
    · intro hfalse
      rw [hstep] at hfalse
      exact absurd hfalse (by simp)
    · constructor
      · intro _
        exact ⟨heldata, bytes, hpread, by rw [hstep]⟩
      · intro _
        rw [hstep]
  · constructor
    · intro _
      rw [hstep]
    · constructor
      · intro htrue
        rw [hstep] at htrue
        exact absurd htrue (by simp)
      · rintro ⟨helf, bytes, hproc, -⟩
        rcases hwhy with h | ⟨d, hd, hne⟩ | h
        · rw [helf] at h
          exact absurd h (by simp)
        · rw [helf] at hd
          exact absurd (Option.some.inj hd).symm hne
        · rw [hproc] at h
          exact absurd h (by simp)

/-- Witness for C6: with empty elf memory the signature read fails, the
step reports false and the concrete snapshot is returned unchanged. -/
theorem claim_C6_witness :
    (regsEx.StepIfSignalHandler 0x1000 emptyMem emptyMem).2 = regsEx :=
  (claim_C6 regsEx 0x1000 emptyMem emptyMem).1 (by decide)

end Unwindstack

namespace Unwindstack

/-- Claim C5: through the orchestrator's `Unwind(Regs*, data)` entry
point, the frames the walker collected before stopping are handed back to
the caller even when the walk ended in an error (the walker's error is
recorded alongside them), and the returned boolean is true exactly when
the returned frame list is non-empty. -/
theorem claim_C5 (env : InitEnv) (walker : Regs → WalkOutcome) (st : OrchState)
    (heap : RegsHeap) (clonePtr : Nat) (regsPtr : Option Nat) (d : AndroidUnwinderData)
    (hfresh : d.frames = []) :
    ((UnwindFromRegs env walker st heap clonePtr regsPtr d).1 = true ↔
      (UnwindFromRegs env walker st heap clonePtr regsPtr d).2.1.frames ≠ []) ∧
    (∀ p, regsPtr = some p →
      (Initialize env st d.error).1 = true →
      (Initialize env st d.error).2.1.arch = (heap p).arch →
      (UnwindFromRegs env walker st heap clonePtr regsPtr d).2.1.frames =
        (walker (heap p)).frames ∧
      (UnwindFromRegs env walker st heap clonePtr regsPtr d).2.1.error =
        (walker (heap p)).err) := by
  cases regsPtr with
  | none =>
    constructor
    · simp [UnwindFromRegs, hfresh]
    · intro p hp
      exact absurd hp (by simp)
  | some p =>
    by_cases hinit : (Initialize env st d.error).1 = false
    · constructor
      · simp [UnwindFromRegs, hinit, hfresh]
      · intro q hq htrue
        rw [hinit] at htrue
        exact absurd htrue (by simp)
    · by_cases harch : (Initialize env st d.error).2.1.arch = (heap p).arch
      · constructor
        · simp [UnwindFromRegs, hinit, harch, List.length_eq_zero]
        · intro q hq _ _
          have hqp : p = q := Option.some.inj hq
          subst hqp
          constructor
          · simp [UnwindFromRegs, hinit, harch]
          · simp [UnwindFromRegs, hinit, harch]
      · constructor
        · simp [UnwindFromRegs, hinit, harch, hfresh]
        · intro q hq _ harch2
          have hqp : p = q := Option.some.inj hq
          subst hqp
          exact absurd harch2 harch

/-- Witness for C5: a concrete successful walk returns its one frame and
reports true. -/
theorem claim_C5_witness :
    (UnwindFromRegs envEx walkerEx OrchState.fresh heapEx 1 (some 0)
        AndroidUnwinderData.empty).2.1.frames = [⟨5, 0⟩] ∧
    (UnwindFromRegs envEx walkerEx OrchState.fresh heapEx 1 (some 0)
        AndroidUnwinderData.empty).1 = true := by
  have h := claim_C5 envEx walkerEx OrchState.fresh heapEx 1 (some 0)
    AndroidUnwinderData.empty rfl
  have hframes := (h.2 0 rfl rfl rfl).1
  constructor
  · rw [hframes]
    rfl
  · apply h.1.mpr
    rw [hframes]
    intro hcontra
    exact absurd hcontra (by simp [walkerEx, heapEx])

/-- Claim C9: the caller-supplied register snapshot object is never
mutated by `Unwind(Regs*, data)`: the walker operates on a clone placed in
a fresh heap slot, so after the call the caller's slot holds exactly the
value it held on entry, whatever the outcome. -/
theorem claim_C9 (env : InitEnv) (walker : Regs → WalkOutcome) (st : OrchState)
    (heap : RegsHeap) (clonePtr p : Nat) (d : AndroidUnwinderData)
    (hfresh : clonePtr ≠ p) :
    ((UnwindFromRegs env walker st heap clonePtr (some p) d).2.2.1) p = heap p := by
  have hne : p ≠ clonePtr := fun he => hfresh he.symm
  by_cases hinit : (Initialize env st d.error).1 = false
  · simp [UnwindFromRegs, hinit]
  · by_cases harch : (Initialize env st d.error).2.1.arch = (heap p).arch
    · simp [UnwindFromRegs, hinit, harch, hne]
    · simp [UnwindFromRegs, hinit, harch]

/-- Witness for C9: with the clone allocated at slot 1 and the caller's
snapshot at slot 0, slot 0 is unchanged after a concrete unwind. -/
theorem claim_C9_witness :
    (UnwindFromRegs envEx walkerEx OrchState.fresh heapEx 1 (some 0)
        AndroidUnwinderData.empty).2.2.1 0 = heapEx 0 :=
  claim_C9 envEx walkerEx OrchState.fresh heapEx 1 0 AndroidUnwinderData.empty (by decide)

/-- Claim C10: `AndroidUnwinder::Initialize` is once-only and sticky: when
the once-flag is already set a call returns the stored status and touches
nothing, a second call right after a first returns the first call's result
with the state (including the body-execution count) unchanged, one call
executes the body at most once, and after a failed first initialization
every later `Initialize` and `Unwind` on the instance fails without
re-running the body. -/
theorem claim_C10 (env : InitEnv) (st : OrchState) (err : ErrorData) :
    (st.initOnce = true → Initialize env st err = (st.initStatus, st, err)) ∧
    (Initialize env (Initialize env st err).2.1 (Initialize env st err).2.2 =
      ((Initialize env st err).1, (Initialize env st err).2.1, (Initialize env st err).2.2)) ∧
    ((Initialize env st err).2.1.runs ≤ st.runs + 1) ∧
    (st.initOnce = false → env.ok = false →
      (Initialize env st err).1 = false ∧
      ∀ (walker : Regs → WalkOutcome) (heap : RegsHeap) (c p : Nat)
        (d : AndroidUnwinderData),
        (UnwindFromRegs env walker (Initialize env st err).2.1 heap c (some p) d).1 = false ∧
        (UnwindFromRegs env walker (Initialize env st err).2.1 heap c (some p) d).2.2.2 =
          (Initialize env st err).2.1) := by
  refine ⟨?_, ?_, ?_, ?_⟩
  · intro h
    simp [Initialize, h]
  · by_cases h : st.initOnce
    · by_cases hok : env.ok <;> simp [Initialize, h]
    · have h2 : st.initOnce = false := by simpa using h
      by_cases hok : env.ok <;> simp [Initialize, h2, hok]
  · by_cases h : st.initOnce
    · simp [Initialize, h]
    · have h2 : st.initOnce = false := by simpa using h
      by_cases hok : env.ok <;> simp [Initialize, h2, hok]
  · intro h hok
    have hfail : Initialize env st err =
        (false, ⟨true, false, st.arch, st.runs + 1⟩, { err with code := env.failCode }) := by
      simp [Initialize, h, hok]
    refine ⟨by rw [hfail], ?_⟩
    intro walker heap c p d
    have hsecond : (Initialize env (Initialize env st err).2.1 d.error).1 = false := by
      rw [hfail]
      simp [Initialize]
    constructor
    · simp [UnwindFromRegs, hsecond]
    · simp [UnwindFromRegs, hsecond]
      rw [hfail]
      simp [Initialize]

/-- Witness for C10: a concrete maps-parse failure makes the first
initialization fail and a subsequent unwind attempt return false. -/
theorem claim_C10_witness :
    (Initialize envBad OrchState.fresh ⟨ErrorCode.errNone, 0⟩).1 = false ∧
    (UnwindFromRegs envBad walkerEx
        (Initialize envBad OrchState.fresh ⟨ErrorCode.errNone, 0⟩).2.1 heapEx 1 (some 0)
        AndroidUnwinderData.empty).1 = false := by
  have h := (claim_C10 envBad OrchState.fresh ⟨ErrorCode.errNone, 0⟩).2.2.2 rfl rfl
  exact ⟨h.1, (h.2 walkerEx heapEx 1 0 AndroidUnwinderData.empty).1⟩

end Unwindstack

namespace Unwindstack

theorem getNameIn_single (e : SymEnt) (s : List Nat) (a : Nat) (hfunc : isFunc e) :
    GetNameIn [⟨e, some s⟩] a =
      if symMatches e a then some (s, a - e.value) else none := by
  by_cases hm : symMatches e a
  · simp [GetNameIn, findFunc, List.find?, hfunc, hm]
  · simp [GetNameIn, findFunc, List.find?, hfunc, hm]

/-- Claim C1: over a table holding one eligible function entry `e` with
resolvable name `s`, `GetName` succeeds at `value` and `value + size - 1`
with offsets 0 and `size - 1`, fails one byte before the entry and at
`value + size`; a zero-size entry matches only its own address; and in
general a lookup succeeds exactly on the matching rule
`value <= A < value + max(size, 1)`. -/
theorem claim_C1 (t : Symbols) (m : SymMemory) (e : SymEnt) (s : List Nat)
    (hload : loadEntries m t = [⟨e, some s⟩]) (hfunc : isFunc e) :
    (0 < e.size →
      t.GetName m e.value = some (s, 0) ∧
      t.GetName m (e.value + e.size - 1) = some (s, e.size - 1) ∧
      (0 < e.value → t.GetName m (e.value - 1) = none) ∧
      t.GetName m (e.value + e.size) = none) ∧
    (e.size = 0 →
      ∀ a, t.GetName m a = if a = e.value then some (s, 0) else none) ∧
    (∀ a, (t.GetName m a).isSome ↔ symMatches e a) := by
  have hg : ∀ a, t.GetName m a = if symMatches e a then some (s, a - e.value) else none := by
    intro a
    rw [Symbols.GetName, hload]
    exact getNameIn_single e s a hfunc
  refine ⟨?_, ?_, ?_⟩
  · intro hs
    have hmax : max e.size 1 = e.size := Nat.max_eq_left hs
    refine ⟨?_, ?_, ?_, ?_⟩
    · rw [hg, if_pos ⟨Nat.le_refl _, by rw [hmax]; omega⟩]
      simp
    · rw [hg, if_pos ⟨by omega, by rw [hmax]; omega⟩]
      have harith : e.value + e.size - 1 - e.value = e.size - 1 := by omega
      rw [harith]
    · intro hv
      rw [hg, if_neg]
      rintro ⟨h1, -⟩
      omega
    · rw [hg, if_neg]
      rintro ⟨-, h2⟩
      rw [hmax] at h2
      omega
  · intro hs a
    have hmax : max e.size 1 = 1 := by simp [hs]
    by_cases ha : a = e.value
    · subst ha
      rw [hg, if_pos ⟨Nat.le_refl _, by rw [hmax]; omega⟩, if_pos rfl]
      simp
    · rw [hg, if_neg, if_neg ha]
      rintro ⟨h1, h2⟩
      rw [hmax] at h2
      omega
  · intro a
    rw [hg]
    by_cases hm : symMatches e a
    · simp [hm]
    · simp [hm]

/-- Witness for C1 on the concrete `function_bounds_check` scenario:
entry value 0x5000, size 0x10. -/
theorem claim_C1_witness :
    symTabEx.GetName symMemEx 0x5000 = some (fakeFunctionName, 0) ∧
    symTabEx.GetName symMemEx 0x500f = some (fakeFunctionName, 0xf) ∧
    symTabEx.GetName symMemEx 0x4fff = none ∧
    symTabEx.GetName symMemEx 0x5010 = none := by
  have h := (claim_C1 symTabEx symMemEx symEntEx fakeFunctionName (by decide) (by decide)).1
    (by decide)
  exact ⟨h.1, h.2.1, h.2.2.1 (by decide), h.2.2.2⟩

theorem readSymAt_bound (m : SymMemory) (t : Symbols) (i : Nat) (e : SymEnt)
    (h : readSymAt m t i = some e) :
    t.offset + i * t.entrySize + t.recSize ≤ u64Bound := by
  by_cases hc : t.offset + i * t.entrySize + t.recSize ≤ u64Bound
  · exact hc
  · rw [readSymAt, if_neg hc] at h
    exact absurd h (by simp)

theorem readSymsFrom_bound (m : SymMemory) (t : Symbols) :
    ∀ (fuel start i : Nat), i < (readSymsFrom m t start fuel).length →
      t.offset + (start + i) * t.entrySize + t.recSize ≤ u64Bound := by
  intro fuel
  induction fuel with
  | zero =>
    intro start i h
    simp [readSymsFrom] at h
  | succ n ih =>
    intro start i h
    cases hr : readSymAt m t start with
    | none =>
      rw [readSymsFrom, hr] at h
      simp at h
    | some e =>
      rw [readSymsFrom, hr] at h
      cases i with
      | zero => simpa using readSymAt_bound m t start e hr
      | succ j =>
        have hj : j < (readSymsFrom m t (start + 1) n).length := by
          simp at h
          omega
        have hb := ih (start + 1) j hj
        have harith : start + 1 + j = start + (j + 1) := by omega
        rw [harith] at hb
        exact hb

/-- Claim C2: adversarial symbol-table headers never cause a wrong read.
If even the first entry record would overflow u64 arithmetic, every
`GetName` and `GetGlobal` lookup fails cleanly; every entry that is read
at all was read at an address whose whole record fits below the numeric
maximum; and on the concrete `get_global_overflow` header (start
`UINT64_MAX - 0x1000`, size `UINT64_MAX`, entry size `UINT64_MAX / 4`)
the in-bounds entry is found while the lookup that would have to walk
past the overflow point fails with no entry. -/
theorem claim_C2 :
    (∀ (t : Symbols) (m : SymMemory), u64Bound < t.offset + t.recSize →
      (∀ a, t.GetName m a = none) ∧ (∀ s, t.GetGlobal m s = none)) ∧
    (∀ (t : Symbols) (m : SymMemory) (i : Nat), i < (entriesOf m t).length →
      t.offset + i * t.entrySize + t.recSize ≤ u64Bound) ∧
    (ovTab.GetGlobal ovMem globalZeroName = some 0 ∧
     ovTab.GetGlobal ovMem globalOneName = none) := by
  refine ⟨?_, ?_, by decide, by decide⟩
  · intro t m hov
    have h0 : readSymAt m t 0 = none := by
      rw [readSymAt, if_neg]
      omega
    have hempty : entriesOf m t = [] := by
      rw [entriesOf]
      cases hc : t.count with
      | zero => rfl
      | succ n => rw [readSymsFrom, h0]
    have hload : loadEntries m t = [] := by
      rw [loadEntries, hempty]
      rfl
    constructor
    · intro a
      rw [Symbols.GetName, hload]
      rfl
    · intro s
      rw [Symbols.GetGlobal, hload]
      rfl
  · intro t m i h
    have h2 : i < (readSymsFrom m t 0 t.count).length := h
    simpa using readSymsFrom_bound m t t.count 0 i h2

/-- Witness for C2: a table whose entry array starts at the numeric
maximum yields no entry from cleared memory. -/
theorem claim_C2_witness :
    Symbols.GetName ⟨u64Bound, 1, 1, 0, 0, 24⟩ emptySymMem 0 = none :=
  ((claim_C2.1 ⟨u64Bound, 1, 1, 0, 0, 24⟩ emptySymMem (by decide)).1) 0

/-- Claim C8: the first `GetName` lookup reads and retains the entire
entry array; a lookup against a populated cache is independent of the
backing memory; after the first lookup, clearing the memory source still
gives every later lookup — including of addresses never queried before —
the same result as the original memory; and concretely, on the
`symtab_read_cached` table, lookups of the previously-unqueried addresses
0x5001, 0x2002, 0x1003 and 0x6000 against cleared memory return the
correct names and offsets (respectively nothing). -/
theorem claim_C8 (t : Symbols) (m : SymMemory) :
    (∀ a, (t.GetNameCached m none a).2 = some (loadEntries m t)) ∧
    (∀ (m2 m3 : SymMemory) (es : List NamedEnt) (a : Nat),
      (t.GetNameCached m2 (some es) a).1 = (t.GetNameCached m3 (some es) a).1) ∧
    (∀ a0 a, (t.GetNameCached emptySymMem ((t.GetNameCached m none a0).2) a).1 =
      t.GetName m a) ∧
    ((cachedTab.GetNameCached emptySymMem
        ((cachedTab.GetNameCached cachedMem none 0x5000).2) 0x5001).1 =
      some (firstEntryName, 1) ∧
     (cachedTab.GetNameCached emptySymMem
        ((cachedTab.GetNameCached cachedMem none 0x5000).2) 0x2002).1 =
      some (secondEntryName, 2) ∧
     (cachedTab.GetNameCached emptySymMem
        ((cachedTab.GetNameCached cachedMem none 0x5000).2) 0x1003).1 =
      some (thirdEntryName, 3) ∧
     (cachedTab.GetNameCached emptySymMem
        ((cachedTab.GetNameCached cachedMem none 0x5000).2) 0x6000).1 = none) := by
  exact ⟨fun a => rfl, fun m2 m3 es a => rfl, fun a0 a => rfl,
    by decide, by decide, by decide, by decide⟩

end Unwindstack

namespace Unwindstack

theorem searchSame_lt (ms : List MapRegion) (f : Nat) :
    ∀ j i, searchSame ms f j = some i → i < j := by
  intro j
  induction j with
  | zero =>
    intro i h
    exact absurd h (by simp [searchSame])
  | succ k ih =>
    intro i h
    rw [searchSame] at h
    by_cases hf : fileOf ms k = f
    · rw [if_pos hf] at h
      have hk : k = i := Option.some.inj h
      omega
    · rw [if_neg hf] at h
      exact Nat.lt_trans (ih i h) (Nat.lt_succ_self k)

theorem searchSame_file (ms : List MapRegion) (f : Nat) :
    ∀ j i, searchSame ms f j = some i → fileOf ms i = f := by
  intro j
  induction j with
  | zero =>
    intro i h
    exact absurd h (by simp [searchSame])
  | succ k ih =>
    intro i h
    rw [searchSame] at h
    by_cases hf : fileOf ms k = f
    · rw [if_pos hf] at h
      rw [← Option.some.inj h]
      exact hf
    · rw [if_neg hf] at h
      exact ih i h

theorem chainHeadF_le (fs : FileSet) (ms : List MapRegion) :
    ∀ fuel i, chainHeadF fs ms fuel i ≤ i := by
  intro fuel
  induction fuel with
  | zero =>
    intro i
    exact Nat.le_refl i
  | succ n ih =>
    intro i
    rw [chainHeadF]
    by_cases hh : isHeadB fs ms i
    · rw [if_pos hh]
    · rw [if_neg hh]
      cases hp : prevSame ms i with
      | none => exact Nat.le_refl i
      | some j =>
        exact Nat.le_of_lt (Nat.lt_of_le_of_lt (ih j) (searchSame_lt ms _ i j hp))

theorem chainHeadF_file (fs : FileSet) (ms : List MapRegion) :
    ∀ fuel i, fileOf ms (chainHeadF fs ms fuel i) = fileOf ms i := by
  intro fuel
  induction fuel with
  | zero =>
    intro i
    rfl
  | succ n ih =>
    intro i
    rw [chainHeadF]
    by_cases hh : isHeadB fs ms i
    · rw [if_pos hh]
    · rw [if_neg hh]
      cases hp : prevSame ms i with
      | none => rfl
      | some j =>
        rw [ih j]
        exact searchSame_file ms _ i j hp

theorem chainHeadF_head_or (fs : FileSet) (ms : List MapRegion) :
    ∀ fuel i, i ≤ fuel →
      isHeadB fs ms (chainHeadF fs ms fuel i) = true ∨
      prevSame ms (chainHeadF fs ms fuel i) = none := by
  intro fuel
  induction fuel with
  | zero =>
    intro i hle
    have hi : i = 0 := Nat.le_zero.mp hle
    subst hi
    right
    rfl
  | succ n ih =>
    intro i hle
    rw [chainHeadF]
    by_cases hh : isHeadB fs ms i
    · rw [if_pos hh]
      exact Or.inl hh
    · rw [if_neg hh]
      cases hp : prevSame ms i with
      | none => exact Or.inr hp
      | some j =>
        have hj : j ≤ n := by
          have := searchSame_lt ms _ i j hp
          omega
        exact ih j hj

theorem chainHead_le (fs : FileSet) (ms : List MapRegion) (i : Nat) :
    chainHead fs ms i ≤ i :=
  chainHeadF_le fs ms i i

theorem chainHead_file (fs : FileSet) (ms : List MapRegion) (i : Nat) :
    fileOf ms (chainHead fs ms i) = fileOf ms i :=
  chainHeadF_file fs ms i i

theorem chainHead_fixed (fs : FileSet) (ms : List MapRegion) (h : Nat)
    (hcase : isHeadB fs ms h = true ∨ prevSame ms h = none) :
    chainHead fs ms h = h := by
  cases h with
  | zero => rfl
  | succ k =>
    rw [chainHead, chainHeadF]
    rcases hcase with hh | hp
    · rw [if_pos hh]
    · by_cases hh : isHeadB fs ms (k + 1)
      · rw [if_pos hh]
      · rw [if_neg hh, hp]

theorem chainHead_idem (fs : FileSet) (ms : List MapRegion) (i : Nat) :
    chainHead fs ms (chainHead fs ms i) = chainHead fs ms i :=
  chainHead_fixed fs ms (chainHead fs ms i)
    (chainHeadF_head_or fs ms i i (Nat.le_refl i))

theorem getD_append_lt (l : List Nat) (x : Nat) :
    ∀ i d, i < l.length → (l ++ [x]).getD i d = l.getD i d := by
  induction l with
  | nil =>
    intro i d h
    exact absurd h (by simp)
  | cons a as ih =>
    intro i d h
    cases i with
    | zero => rfl
    | succ j =>
      have hj : j < as.length := by
        simpa using h
      exact ih j d hj

theorem getD_append_len (l : List Nat) (x d : Nat) :
    (l ++ [x]).getD l.length d = x := by
  induction l with
  | nil => rfl
  | cons a as ih => exact ih

theorem getD_append_at (l : List Nat) (x d n : Nat) (h : l.length = n) :
    (l ++ [x]).getD n d = x := by
  rw [← h]
  exact getD_append_len l x d

theorem lookup_insert (k0 k : Nat × Nat) (v0 : Nat) (c : List ((Nat × Nat) × Nat)) :
    lookupCache ((k0, v0) :: c) k =
      if k0 = k then some v0 else lookupCache c k := by
  by_cases hk : k0 = k
  · simp [lookupCache, List.find?, hk]
  · simp [lookupCache, List.find?, hk]

end Unwindstack

namespace Unwindstack

theorem resolveInv_enabled (fs : FileSet) (ms : List MapRegion) :
    ∀ n : Nat,
      (resolvePre true fs ms n).2.length = n ∧
      (∀ i, i < n →
        lookupCache (resolvePre true fs ms n).1.cache (cacheKey fs ms i) =
          some ((resolvePre true fs ms n).2.getD i 0)) ∧
      (∀ k v, lookupCache (resolvePre true fs ms n).1.cache k = some v →
        v < (resolvePre true fs ms n).1.next) ∧
      (∀ k1 k2 v, lookupCache (resolvePre true fs ms n).1.cache k1 = some v →
        lookupCache (resolvePre true fs ms n).1.cache k2 = some v → k1 = k2) := by
  intro n
  induction n with
  | zero =>
    refine ⟨rfl, ?_, ?_, ?_⟩
    · intro i hi
      exact absurd hi (by omega)
    · intro k v h
      exact absurd h (by simp [resolvePre, lookupCache])
    · intro k1 k2 v h1 h2
      exact absurd h1 (by simp [resolvePre, lookupCache])
  | succ n ih =>
    obtain ⟨ihlen, ihB, ihC, ihD⟩ := ih
    by_cases hlt : chainHead fs ms n < n
    · have hstep : resolvePre true fs ms (n + 1) =
          ((resolvePre true fs ms n).1,
           (resolvePre true fs ms n).2 ++
             [(resolvePre true fs ms n).2.getD (chainHead fs ms n) 0]) := by
        rw [resolvePre, resolveStep, if_pos hlt]
      refine ⟨?_, ?_, ?_, ?_⟩
      · rw [hstep]
        simp [ihlen]
      · intro i hi
        rw [hstep]
        by_cases hin : i < n
        · rw [getD_append_lt _ _ i 0 (by rw [ihlen]; exact hin)]
          exact ihB i hin
        · have hie : i = n := by omega
          subst hie
          have hkey : cacheKey fs ms i = cacheKey fs ms (chainHead fs ms i) := by
            unfold cacheKey elfStart
            rw [chainHead_idem, chainHead_file]
          have happ : ((resolvePre true fs ms i).2 ++
              [(resolvePre true fs ms i).2.getD (chainHead fs ms i) 0]).getD i 0 =
              (resolvePre true fs ms i).2.getD (chainHead fs ms i) 0 :=
            getD_append_at _ _ 0 i ihlen
          rw [happ, hkey]
          exact ihB (chainHead fs ms i) hlt
      · intro k v h
        rw [hstep] at h
        have := ihC k v h
        rw [hstep]
        exact this
      · intro k1 k2 v h1 h2
        rw [hstep] at h1 h2
        exact ihD k1 k2 v h1 h2
    · have hhead : chainHead fs ms n = n := by
        have := chainHead_le fs ms n
        omega
      have hkeyn : cacheKey fs ms n = (fileOf ms n, offOf ms n) := by
        unfold cacheKey elfStart
        rw [hhead]
      cases hcache : lookupCache (resolvePre true fs ms n).1.cache (fileOf ms n, offOf ms n) with
      | some v =>
        have hstep : resolvePre true fs ms (n + 1) =
            ((resolvePre true fs ms n).1, (resolvePre true fs ms n).2 ++ [v]) := by
          rw [resolvePre, resolveStep, if_neg hlt, if_pos rfl, hcache]
        refine ⟨?_, ?_, ?_, ?_⟩
        · rw [hstep]
          simp [ihlen]
        · intro i hi
          rw [hstep]
          by_cases hin : i < n
          · rw [getD_append_lt _ _ i 0 (by rw [ihlen]; exact hin)]
            exact ihB i hin
          · have hie : i = n := by omega
            subst hie
            have happ : ((resolvePre true fs ms i).2 ++ [v]).getD i 0 = v :=
              getD_append_at _ _ 0 i ihlen
            rw [happ, hkeyn]
            exact hcache
        · intro k v2 h
          rw [hstep] at h
          have := ihC k v2 h
          rw [hstep]
          exact this
        · intro k1 k2 v2 h1 h2
          rw [hstep] at h1 h2
          exact ihD k1 k2 v2 h1 h2
      | none =>
        have hstep : resolvePre true fs ms (n + 1) =
            (⟨((fileOf ms n, offOf ms n), (resolvePre true fs ms n).1.next) ::
                (resolvePre true fs ms n).1.cache,
              (resolvePre true fs ms n).1.next + 1⟩,
             (resolvePre true fs ms n).2 ++ [(resolvePre true fs ms n).1.next]) := by
          rw [resolvePre, resolveStep, if_neg hlt, if_pos rfl, hcache]
        refine ⟨?_, ?_, ?_, ?_⟩
        · rw [hstep]
          simp [ihlen]
        · intro i hi
          rw [hstep]
          simp only [lookup_insert]
          by_cases hin : i < n
          · have hne : ¬ ((fileOf ms n, offOf ms n) = cacheKey fs ms i) := by
              intro he
              have hB := ihB i hin
              rw [← he, hcache] at hB
              exact absurd hB (by simp)
            rw [if_neg hne, getD_append_lt _ _ i 0 (by rw [ihlen]; exact hin)]
            exact ihB i hin
          · have hie : i = n := by omega
            subst hie
            rw [hkeyn, if_pos rfl]
            have happ : ((resolvePre true fs ms i).2 ++
                [(resolvePre true fs ms i).1.next]).getD i 0 =
                (resolvePre true fs ms i).1.next :=
              getD_append_at _ _ 0 i ihlen
            rw [happ]
        · intro k v h
          rw [hstep] at h ⊢
          simp only [lookup_insert] at h
          by_cases hk : (fileOf ms n, offOf ms n) = k
          · rw [if_pos hk] at h
            have hv : (resolvePre true fs ms n).1.next = v := Option.some.inj h
            simp only []
            omega
          · rw [if_neg hk] at h
            have := ihC k v h
            simp only []
            omega
        · intro k1 k2 v h1 h2
          rw [hstep] at h1 h2
          simp only [lookup_insert] at h1 h2
          by_cases hk1 : (fileOf ms n, offOf ms n) = k1
          · by_cases hk2 : (fileOf ms n, offOf ms n) = k2
            · rw [← hk1, ← hk2]
            · rw [if_pos hk1] at h1
              rw [if_neg hk2] at h2
              have hv : (resolvePre true fs ms n).1.next = v := Option.some.inj h1
              have := ihC k2 v h2
              omega
          · by_cases hk2 : (fileOf ms n, offOf ms n) = k2
            · rw [if_neg hk1] at h1
              rw [if_pos hk2] at h2
              have hv : (resolvePre true fs ms n).1.next = v := Option.some.inj h2
              have := ihC k1 v h1
              omega
            · rw [if_neg hk1] at h1
              rw [if_neg hk2] at h2
              exact ihD k1 k2 v h1 h2

end Unwindstack

namespace Unwindstack

theorem resolveInv_disabled (fs : FileSet) (ms : List MapRegion) :
    ∀ n : Nat,
      (resolvePre false fs ms n).2.length = n ∧
      (∀ i, i < n →
        (resolvePre false fs ms n).2.getD i 0 < (resolvePre false fs ms n).1.next) ∧
      (∀ i j, i < n → j < n →
        ((resolvePre false fs ms n).2.getD i 0 = (resolvePre false fs ms n).2.getD j 0 ↔
          chainHead fs ms i = chainHead fs ms j)) := by
  intro n
  induction n with
  | zero =>
    refine ⟨rfl, ?_, ?_⟩
    · intro i hi
      exact absurd hi (by omega)
    · intro i j hi hj
      exact absurd hi (by omega)
  | succ n ih =>
    obtain ⟨ihlen, ihG, ihH⟩ := ih
    by_cases hlt : chainHead fs ms n < n
    · have hstep : resolvePre false fs ms (n + 1) =
          ((resolvePre false fs ms n).1,
           (resolvePre false fs ms n).2 ++
             [(resolvePre false fs ms n).2.getD (chainHead fs ms n) 0]) := by
        rw [resolvePre, resolveStep, if_pos hlt]
      have hgetD : ∀ i, i < n →
          (resolvePre false fs ms (n + 1)).2.getD i 0 =
            (resolvePre false fs ms n).2.getD i 0 := by
        intro i hin
        rw [hstep]
        exact getD_append_lt _ _ i 0 (by rw [ihlen]; exact hin)
      have hgetN : (resolvePre false fs ms (n + 1)).2.getD n 0 =
          (resolvePre false fs ms n).2.getD (chainHead fs ms n) 0 := by
        rw [hstep]
        exact getD_append_at _ _ 0 n ihlen
      have hcn : chainHead fs ms (chainHead fs ms n) = chainHead fs ms n :=
        chainHead_idem fs ms n
      refine ⟨?_, ?_, ?_⟩
      · rw [hstep]
        simp [ihlen]
      · intro i hi
        by_cases hin : i < n
        · rw [hgetD i hin, hstep]
          exact ihG i hin
        · have hie : i = n := by omega
          rw [hie, hgetN, hstep]
          exact ihG (chainHead fs ms n) hlt
      · intro i j hi hj
        by_cases hin : i < n
        · by_cases hjn : j < n
          · rw [hgetD i hin, hgetD j hjn]
            exact ihH i j hin hjn
          · have hje : j = n := by omega
            rw [hje, hgetD i hin, hgetN, ihH i (chainHead fs ms n) hin hlt, hcn]
        · have hie : i = n := by omega
          by_cases hjn : j < n
          · rw [hie, hgetN, hgetD j hjn, ihH (chainHead fs ms n) j hlt hjn, hcn]
          · have hje : j = n := by omega
            rw [hie, hje]
            simp
    · have hhead : chainHead fs ms n = n := by
        have := chainHead_le fs ms n
        omega
      have hstep : resolvePre false fs ms (n + 1) =
          (⟨(resolvePre false fs ms n).1.cache, (resolvePre false fs ms n).1.next + 1⟩,
           (resolvePre false fs ms n).2 ++ [(resolvePre false fs ms n).1.next]) := by
        rw [resolvePre, resolveStep, if_neg hlt]
        rfl
      have hgetD : ∀ i, i < n →
          (resolvePre false fs ms (n + 1)).2.getD i 0 =
            (resolvePre false fs ms n).2.getD i 0 := by
        intro i hin
        rw [hstep]
        exact getD_append_lt _ _ i 0 (by rw [ihlen]; exact hin)
      have hgetN : (resolvePre false fs ms (n + 1)).2.getD n 0 =
          (resolvePre false fs ms n).1.next := by
        rw [hstep]
        exact getD_append_at _ _ 0 n ihlen
      refine ⟨?_, ?_, ?_⟩
      · rw [hstep]
        simp [ihlen]
      · intro i hi
        by_cases hin : i < n
        · rw [hgetD i hin, hstep]
          exact Nat.lt_succ_of_lt (ihG i hin)
        · have hie : i = n := by omega
          rw [hie, hgetN, hstep]
          exact Nat.lt_succ_self _
      · intro i j hi hj
        by_cases hin : i < n
        · by_cases hjn : j < n
          · rw [hgetD i hin, hgetD j hjn]
            exact ihH i j hin hjn
          · have hje : j = n := by omega
            rw [hje, hgetD i hin, hgetN, hhead]
            constructor
            · intro he
              have := ihG i hin
              omega
            · intro hc
              have h1 : chainHead fs ms i ≤ i := chainHead_le fs ms i
              omega
        · have hie : i = n := by omega
          by_cases hjn : j < n
          · rw [hie, hgetN, hgetD j hjn, hhead]
            constructor
            · intro he
              have := ihG j hjn
              omega
            · intro hc
              have h1 : chainHead fs ms j ≤ j := chainHead_le fs ms j
              omega
          · have hje : j = n := by omega
            rw [hie, hje]
            simp

end Unwindstack

namespace Unwindstack

/-- Claim C3: with the object cache enabled, two map regions resolve to
the identical cached object exactly when their computed
`(file identity, elf_start_offset)` pairs are equal; in particular two
regions of the same backing file at different computed start offsets
(several embedded objects in one archive) resolve to distinct objects. -/
theorem claim_C3 (fs : FileSet) (ms : List MapRegion) (i j : Nat)
    (hi : i < ms.length) (hj : j < ms.length) :
    (resolveAll true fs ms).getD i 0 = (resolveAll true fs ms).getD j 0 ↔
      cacheKey fs ms i = cacheKey fs ms j := by
  obtain ⟨hlen, hB, hC, hD⟩ := resolveInv_enabled fs ms ms.length
  constructor
  · intro he
    have he2 : (resolvePre true fs ms ms.length).2.getD i 0 =
        (resolvePre true fs ms ms.length).2.getD j 0 := he
    apply hD (cacheKey fs ms i) (cacheKey fs ms j)
      ((resolvePre true fs ms ms.length).2.getD i 0)
    · exact hB i hi
    · rw [he2]
      exact hB j hj
  · intro hk
    have h1 := hB i hi
    have h2 := hB j hj
    rw [hk] at h1
    rw [h1] at h2
    exact Option.some.inj h2

/-- Witness for C3: the second split mapping of file 7 shares the first
mapping's object (equal keys), while the two embedded objects of archive
file 9 stay distinct (same file, different start offsets). -/
theorem claim_C3_witness :
    (resolveAll true splitFiles tripleMaps).getD 0 0 =
      (resolveAll true splitFiles tripleMaps).getD 2 0 ∧
    (resolveAll true apkFiles apkMaps).getD 0 0 ≠
      (resolveAll true apkFiles apkMaps).getD 1 0 := by
  constructor
  · exact (claim_C3 splitFiles tripleMaps 0 2 (by decide) (by decide)).mpr (by decide)
  · intro he
    have hk := (claim_C3 apkFiles apkMaps 0 1 (by decide) (by decide)).mp he
    exact absurd hk (by decide)

/-- Counterexample to C4 as stated: with the cache disabled, the two
distinct regions of the split read-only + read-exec mapping of file 7
still resolve to the same object instance (the read-exec continuation
shares its chain head's object), so not every pair of distinct regions
yields distinct instances. -/
theorem claim_C4_counterexample :
    splitMaps.getD 0 noRegion ≠ splitMaps.getD 1 noRegion ∧
    fileOf splitMaps 0 = fileOf splitMaps 1 ∧
    (resolveAll false splitFiles splitMaps).getD 0 0 =
      (resolveAll false splitFiles splitMaps).getD 1 0 := by
  decide

/-- Claim C4 as amended: with the object cache disabled, two map regions
resolve to the same object instance exactly when they belong to the same
split-mapping chain (same computed chain head); any two regions of
different chains get distinct instances even when they share the same
backing file identity. -/
theorem claim_C4 (fs : FileSet) (ms : List MapRegion) (i j : Nat)
    (hi : i < ms.length) (hj : j < ms.length) :
    (resolveAll false fs ms).getD i 0 = (resolveAll false fs ms).getD j 0 ↔
      chainHead fs ms i = chainHead fs ms j := by
  obtain ⟨hlen, hG, hH⟩ := resolveInv_disabled fs ms ms.length
  exact hH i j hi hj

/-- Witness for C4 (amended): with the cache disabled the two embedded
objects of archive file 9 are distinct instances despite the shared
backing file, and the split mapping of file 7 shares one instance. -/
theorem claim_C4_witness :
    (resolveAll false apkFiles apkMaps).getD 0 0 ≠
      (resolveAll false apkFiles apkMaps).getD 1 0 ∧
    (resolveAll false splitFiles splitMaps).getD 0 0 =
      (resolveAll false splitFiles splitMaps).getD 1 0 := by
  constructor
  · intro he
    have hk := (claim_C4 apkFiles apkMaps 0 1 (by decide) (by decide)).mp he
    exact absurd hk (by decide)
  · exact (claim_C4 splitFiles splitMaps 0 1 (by decide) (by decide)).mpr (by decide)

end Unwindstack
